import Mathlib

/-!
Verification of the HD-Leads-Collector core against its design spec.

The development shallowly embeds the two core components:

* `HDLeadsClient` (`hd_api_client.py`): OAuth token caching
  (`get_access_token`) and the paginated lead fetch loop (`fetch_leads`).
  Network exchanges are modelled by explicit oracles: the token exchange is
  an `Option TokenData` (none = request failure), and the page source is a
  function from start-row offset to `PageResult` (`.fail` = request
  exception, caught by the code and turned into an early `break`).

* `SheetsManager` (`sheets_manager.py`): header installation
  (`ensure_headers`), identifier-column reads (`get_existing_lead_ids`),
  notes synthesis (`extract_notes`), row projection (`lead_to_row`) and the
  deduplicating append (`append_leads`).  A sheet is the list of its rows;
  the Sheets API `values().get` behaviour (empty cells come back as absent,
  a range read clips to the requested columns) is embedded in the read
  functions.  The wall-clock timestamp written in the last column is passed
  in as a parameter `now`.
-/

/-! ## Lead records and notes (`sheets_manager.py`) -/

/-- One entry of a lead's nested notes collection, keys `Created` and
`Note` (a missing key and an empty string are indistinguishable to the
code, which reads both with default `''`). -/
structure SfiNote where
  Created : String
  Note : String
deriving DecidableEq, Repr

/-- The raw value under `ListOfSfinotesws -> Sfinotesws`: the remote API
may return a single object instead of a list. -/
inductive NotesField where
  | single (n : SfiNote)
  | listOf (ns : List SfiNote)
deriving DecidableEq, Repr

/-- A lead record: a flat string-keyed mapping plus the nested notes
collection under the key `ListOfSfinotesws`. -/
structure Lead where
  fields : List (String × String)
  ListOfSfinotesws : Option NotesField
deriving DecidableEq, Repr

/-- `lead.get(k)`: first binding of key `k`, if any. -/
def leadGet (l : Lead) (k : String) : Option String :=
  (l.fields.find? (fun p => p.1 = k)).map Prod.snd

/-- `lead.get(k, d)`: lookup with default. -/
def leadGetD (l : Lead) (k d : String) : String :=
  (leadGet l k).getD d

/-- The `isinstance(notes_list, dict)` normalisation: a bare object becomes
a one-element list. -/
def notesOf (l : Lead) : List SfiNote :=
  match l.ListOfSfinotesws with
  | none => []
  | some (.single n) => [n]
  | some (.listOf ns) => ns

/-- `SheetsManager._extract_notes`: render each note with a non-empty text
as `[Created] Note` and join with `" | "`; empty string when there is no
notes data. -/
def extract_notes (l : Lead) : String :=
  match l.ListOfSfinotesws with
  | none => ""
  | some nf =>
    let notes_list := match nf with
      | .single n => [n]
      | .listOf ns => ns
    let notes_text := notes_list.filterMap (fun n =>
      if n.Note = "" then none
      else some ("[" ++ n.Created ++ "] " ++ n.Note))
    String.intercalate " | " notes_text

/-- The canonical 21-column header row (`SheetsManager.HEADERS`). -/
def HEADERS : List String :=
  ["Service Center ID", "Order Number", "Created Date", "Status",
   "First Name", "Last Name", "Phone", "Cell Phone", "Email", "Address",
   "City", "State", "Zip Code", "Store Number", "Store Name", "Program",
   "MVendor", "Description", "Question Answers", "Notes", "Last Updated"]

/-- `SheetsManager._lead_to_row`: project a lead onto the 21 columns; the
phone column falls back to the secondary field when the preferred one is
empty or absent (Python `or`); `now` is the wall-clock timestamp string. -/
def lead_to_row (now : String) (l : Lead) : List String :=
  [leadGetD l "Id" "",
   leadGetD l "MMSVCSServiceProviderOrderNumber" "",
   leadGetD l "Created" "",
   leadGetD l "SFIWorkflowOnlyStatus" "",
   leadGetD l "ContactFirstName" "",
   leadGetD l "ContactLastName" "",
   (if leadGetD l "MMSVPreferredContactPhoneNumber" "" = ""
    then leadGetD l "SFIContactHomePhone" ""
    else leadGetD l "MMSVPreferredContactPhoneNumber" ""),
   leadGetD l "CellularPhone" "",
   leadGetD l "MainEmailAddress" "",
   leadGetD l "MMSVSiteAddress" "",
   leadGetD l "MMSVSiteCity" "",
   leadGetD l "MMSVSiteState" "",
   leadGetD l "MMSVSitePostalCode" "",
   leadGetD l "MMSVStoreNumber" "",
   leadGetD l "MMSVStoreName" "",
   leadGetD l "SFIProgramGroupNameUnconstrained" "",
   leadGetD l "SFIMVendor" "",
   leadGetD l "Description" "",
   leadGetD l "MMSVQuestionAnswers" "",
   extract_notes l,
   now]

/-! ## The destination sheet -/

/-- A sheet tab: the ordered list of its rows, row 1 being the header
row when present. -/
abbrev Sheet := List (List String)

/-- The `values().get` result for the one-row range `A1:U1`: the first row
clipped to 21 cells; an absent or entirely empty first row yields no
values. -/
def readHeaderRange (s : Sheet) : List (List String) :=
  match s with
  | [] => []
  | r :: _ => if r.take 21 = [] then [] else [r.take 21]

/-- `SheetsManager._ensure_headers` on an existing tab: if the read first
row is not element-wise equal to `HEADERS`, overwrite the range `A1:U1`
with the canonical headers.  Returns the new sheet and the number of write
calls performed (0 or 1). -/
def ensure_headers (s : Sheet) : Sheet × Nat :=
  if (readHeaderRange s).head? = some HEADERS then (s, 0)
  else
    (match s with
     | [] => [HEADERS]
     | r :: rest => (HEADERS ++ r.drop 21) :: rest, 1)

/-- The `values().get` result for the range `A:A`: one entry per row, `[]`
for a row whose first cell is absent or empty (the API omits empty
cells), `[v]` otherwise. -/
def readColumnA (s : Sheet) : List (List String) :=
  s.map (fun r =>
    match r.head? with
    | none => []
    | some v => if v = "" then [] else [v])

/-- `SheetsManager.get_existing_lead_ids`: the set of first cells of the
non-empty column-A entries below the header row; the whole read failing
(`HttpError`, modelled by `none`) yields the empty set. -/
def get_existing_lead_ids (os : Option Sheet) : Finset String :=
  match os with
  | none => ∅
  | some s => (((readColumnA s).drop 1).filterMap List.head?).toFinset

/-- The dedup test `l.get('Id') not in existing_ids` (a record with no
`Id` key is always kept: `None` is never a member of a set of strings). -/
def keepLead (l : Lead) (ids : Finset String) : Bool :=
  match leadGet l "Id" with
  | none => true
  | some v => decide (v ∉ ids)

/-- Result of `SheetsManager.append_leads`: the sheet afterwards, the rows
sent in the batch write (empty when no write was performed), and the
returned count. -/
structure AppendResult where
  sheet : Sheet
  written : List (List String)
  count : Nat
deriving DecidableEq, Repr

/-- `SheetsManager.append_leads`: ensure headers, optionally drop leads
whose identifier is already present, project the survivors to rows and
append them in one batch, returning the number of rows written (0 when
nothing was left to write). -/
def append_leads (s : Sheet) (leads : List Lead) (skip_duplicates : Bool)
    (now : String) : AppendResult :=
  let s1 := (ensure_headers s).1
  let kept := if skip_duplicates
    then leads.filter (fun l => keepLead l (get_existing_lead_ids (some s1)))
    else leads
  if kept.isEmpty then ⟨s1, [], 0⟩
  else
    let rows := kept.map (lead_to_row now)
    ⟨s1 ++ rows, rows, rows.length⟩

/-- The identifier column of a sheet: first cells of the data rows (all
rows below the header row). -/
def idColumn (s : Sheet) : List String :=
  (s.drop 1).filterMap List.head?

/-! ## Token lifecycle (`hd_api_client.py`) -/

/-- The mutable token state of `HDLeadsClient`: `access_token` and
`token_expiry` (instants are integers; `none` is Python `None`). -/
structure ClientState where
  access_token : Option String
  token_expiry : Option Int
deriving DecidableEq, Repr

/-- The parsed body of a successful token exchange: `access_token` may be
absent, `expires_in` defaults to 1800 when absent. -/
structure TokenData where
  access_token : Option String
  expires_in : Option Int
deriving DecidableEq, Repr

/-- Outcome of one call to `_get_access_token`: the returned token, the
client state afterwards, and whether a network exchange was performed. -/
structure TokenOutcome where
  token : Option String
  state : ClientState
  network : Bool
deriving DecidableEq, Repr

/-- The exchange path of `_get_access_token`: perform the credential
exchange (`exchange` is its parsed response, `none` on request failure),
cache token and expiry with the 300-second safety margin subtracted. -/
def exchangeToken (s : ClientState) (now : Int)
    (exchange : Option TokenData) : TokenOutcome :=
  match exchange with
  | none => ⟨none, s, true⟩
  | some td =>
    let tok := td.access_token
    let expires_in := td.expires_in.getD 1800
    ⟨tok, ⟨tok, some (now + (expires_in - 300))⟩, true⟩

/-- `HDLeadsClient._get_access_token`: if a cached token is truthy
(present and non-empty), an expiry is cached, and `now` is before it,
return the cached token with no network exchange; otherwise perform the
exchange. -/
def get_access_token (s : ClientState) (now : Int)
    (exchange : Option TokenData) : TokenOutcome :=
  match s.access_token, s.token_expiry with
  | some t, some e =>
    if t ≠ "" ∧ now < e then ⟨some t, s, false⟩
    else exchangeToken s now exchange
  | _, _ => exchangeToken s now exchange

/-! ## Paginated fetch (`hd_api_client.py`) -/

/-- The record list inside one page response: the remote API may return a
single object instead of a list when exactly one record matches. -/
inductive RawLeads (α : Type) where
  | one (l : α)
  | many (ls : List α)
deriving DecidableEq, Repr

/-- The `isinstance(leads_list, dict)` normalisation. -/
def normalizeLeads {α : Type} : RawLeads α → List α
  | .one l => [l]
  | .many ls => ls

/-- One page request outcome: `.fail` is a `RequestException` (caught by
the loop), `.page raw lastPage` a parsed response with its record payload
and the string-valued `LastPage` field. -/
inductive PageResult (α : Type) where
  | fail
  | page (raw : RawLeads α) (lastPage : Option String)
deriving DecidableEq, Repr

/-- The `while True` pagination loop of `HDLeadsClient.fetch_leads`,
fuel-indexed: `src` maps a start-row offset to that page request's
outcome; `none` means the fuel ran out before the loop stopped (so the
loop, run unbounded, does not terminate within `fuel` iterations). -/
def fetchLoop {α : Type} (src : Nat → PageResult α) (page_size : Nat) :
    Nat → Nat → List α → Option (List α)
  | 0, _, _ => none
  | fuel + 1, start_row, all_leads =>
    match src start_row with
    | .fail => some all_leads
    | .page raw lastPage =>
      let leads_list := normalizeLeads raw
      if leads_list.isEmpty then some all_leads
      else if lastPage = some "true" ∨ leads_list.length < page_size then
        some (all_leads ++ leads_list)
      else
        fetchLoop src page_size fuel (start_row + page_size)
          (all_leads ++ leads_list)

/-- `HDLeadsClient.fetch_leads`: run the pagination loop from start row 0
with an empty accumulator. -/
def fetch_leads {α : Type} (src : Nat → PageResult α) (page_size fuel : Nat) :
    Option (List α) :=
  fetchLoop src page_size fuel 0 []

/-- A stop condition holds at a page outcome: the request failed, or the
page is empty, or it is declared the last page, or it is short. -/
def stopsAt {α : Type} (pr : PageResult α) (page_size : Nat) : Prop :=
  match pr with
  | .fail => True
  | .page raw lastPage =>
    normalizeLeads raw = [] ∨ lastPage = some "true" ∨
      (normalizeLeads raw).length < page_size

/-! ## Helper lemmas -/

/-- Spec rendering of one note entry. -/
def renderNote (n : SfiNote) : String :=
  "[" ++ n.Created ++ "] " ++ n.Note

lemma filterMap_render (ns : List SfiNote) :
    ns.filterMap (fun n =>
        if n.Note = "" then none
        else some ("[" ++ n.Created ++ "] " ++ n.Note)) =
      (ns.filter (fun n => decide (n.Note ≠ ""))).map renderNote := by
  induction ns with
  | nil => rfl
  | cons n ns ih =>
    by_cases h : n.Note = "" <;>
      simp [List.filterMap_cons, List.filter_cons, h, ih, renderNote]

lemma ensure_headers_eq_self (s : Sheet) (h : s.head? = some HEADERS) :
    ensure_headers s = (s, 0) := by
  cases s with
  | nil => simp at h
  | cons r rest =>
    have hr : r = HEADERS := by simpa using h
    subst hr
    have ht : HEADERS.take 21 = HEADERS := rfl
    have hne : ¬(HEADERS = []) := by decide
    simp [ensure_headers, readHeaderRange, ht, hne]

lemma readColumnA_filterMap (rows : List (List String)) :
    ((rows.map (fun r =>
        match r.head? with
        | none => ([] : List String)
        | some v => if v = "" then [] else [v])).filterMap List.head?) =
      (rows.filterMap List.head?).filter (fun v => decide (v ≠ "")) := by
  induction rows with
  | nil => rfl
  | cons r rest ih =>
    cases hr : r.head? with
    | none => simp [List.filterMap_cons, hr, ih]
    | some v =>
      by_cases hv : v = "" <;>
        simp [List.filterMap_cons, List.filter_cons, hr, hv, ih]

lemma get_existing_lead_ids_eq (s : Sheet) :
    get_existing_lead_ids (some s) =
      ((idColumn s).filter (fun v => decide (v ≠ ""))).toFinset := by
  simp only [get_existing_lead_ids, readColumnA, idColumn]
  rw [← List.map_drop, readColumnA_filterMap]

lemma mem_existing_ids (s : Sheet) (v : String) (hv : v ≠ "") :
    v ∈ get_existing_lead_ids (some s) ↔ v ∈ idColumn s := by
  simp [get_existing_lead_ids_eq, List.mem_filter, hv]

lemma append_leads_eq (s : Sheet) (leads : List Lead) (now : String)
    (hhead : s.head? = some HEADERS) :
    append_leads s leads true now =
      ⟨s ++ (leads.filter (fun l =>
          keepLead l (get_existing_lead_ids (some s)))).map (lead_to_row now),
        (leads.filter (fun l =>
          keepLead l (get_existing_lead_ids (some s)))).map (lead_to_row now),
        (leads.filter (fun l =>
          keepLead l (get_existing_lead_ids (some s)))).length⟩ := by
  unfold append_leads
  rw [ensure_headers_eq_self s hhead]
  by_cases hk :
      (leads.filter (fun l => keepLead l (get_existing_lead_ids (some s)))).isEmpty
  · rw [List.isEmpty_iff] at hk
    simp [hk]
  · simp [hk]

lemma filterMap_head_rows (now : String) (ls : List Lead) :
    (ls.map (lead_to_row now)).filterMap List.head? =
      ls.map (fun l => leadGetD l "Id" "") := by
  induction ls with
  | nil => rfl
  | cons l t ih => simp [List.filterMap_cons, lead_to_row, ih]

lemma idColumn_append (s : Sheet) (rows : List (List String)) (hs : s ≠ []) :
    idColumn (s ++ rows) = idColumn s ++ rows.filterMap List.head? := by
  cases s with
  | nil => exact absurd rfl hs
  | cons r rest => simp [idColumn, List.filterMap_append]

lemma count_cells_filter (leads : List Lead) (E : Finset String) (v : String)
    (hv : v ≠ "") :
    ((leads.filter (fun l => keepLead l E)).map
        (fun l => leadGetD l "Id" "")).count v =
      if v ∈ E then 0
      else (leads.filterMap (fun l => leadGet l "Id")).count v := by
  induction leads with
  | nil => simp
  | cons l t ih =>
    cases hl : leadGet l "Id" with
    | none =>
      have hk : keepLead l E = true := by simp [keepLead, hl]
      have hc : leadGetD l "Id" "" = "" := by simp [leadGetD, hl]
      have hcv : ¬("" = v) := fun h => hv h.symm
      simp [List.filter_cons, hk, List.filterMap_cons, hl, hc,
        List.count_cons, hcv, ih]
    | some w =>
      have hc : leadGetD l "Id" "" = w := by simp [leadGetD, hl]
      by_cases hw : w ∈ E
      · have hk : keepLead l E = false := by simp [keepLead, hl, hw]
        by_cases hwv : w = v
        · subst hwv
          simp [List.filter_cons, hk, List.filterMap_cons, hl, ih, hw]
        · simp [List.filter_cons, hk, List.filterMap_cons, hl, ih,
            List.count_cons, hwv]
      · have hk : keepLead l E = true := by simp [keepLead, hl, hw]
        by_cases hwv : w = v
        · subst hwv
          simp [List.filter_cons, hk, hc, List.filterMap_cons, hl,
            List.count_cons, ih, hw]
        · simp [List.filter_cons, hk, hc, List.filterMap_cons, hl,
            List.count_cons, ih, hwv]

/-- A minimal lead carrying only an identifier. -/
def leadA (v : String) : Lead := ⟨[("Id", v)], none⟩

/-! ## Claim theorems -/

/-- Claim C1: with `skip_duplicates = true`, `append_leads` on a table
with existing identifier set `E` writes exactly the incoming records whose
identifier is not in `E`, in their original relative order, and returns
the number of rows written. -/
theorem append_leads_writes_new_only (s : Sheet) (leads : List Lead)
    (now : String) (hhead : s.head? = some HEADERS)
    (hid : ∀ l ∈ leads, leadGet l "Id" ≠ none) :
    (append_leads s leads true now).written =
        (leads.filter (fun l => decide ((leadGet l "Id").getD "" ∉
          get_existing_lead_ids (some s)))).map (lead_to_row now) ∧
      (append_leads s leads true now).count =
        (leads.filter (fun l => decide ((leadGet l "Id").getD "" ∉
          get_existing_lead_ids (some s)))).length ∧
      (append_leads s leads true now).sheet =
        s ++ (leads.filter (fun l => decide ((leadGet l "Id").getD "" ∉
          get_existing_lead_ids (some s)))).map (lead_to_row now) := by
  have hcongr : leads.filter (fun l =>
        keepLead l (get_existing_lead_ids (some s))) =
      leads.filter (fun l => decide ((leadGet l "Id").getD "" ∉
        get_existing_lead_ids (some s))) := by
    apply List.filter_congr
    intro l hl
    cases hgl : leadGet l "Id" with
    | none => exact absurd hgl (hid l hl)
    | some v => simp [keepLead, hgl]
  rw [append_leads_eq s leads now hhead, hcongr]
  exact ⟨rfl, rfl, rfl⟩

/-- Concrete instance of C1: existing identifiers `{"A","B"}`, incoming
identifiers `B`, `C`, `D`: exactly the records `C` and `D` are written, in
that order, and the returned count is 2. -/
theorem append_leads_writes_new_only_witness :
    (append_leads [HEADERS, ["A"], ["B"]]
        [leadA "B", leadA "C", leadA "D"] true "t").written =
      [lead_to_row "t" (leadA "C"), lead_to_row "t" (leadA "D")] ∧
    (append_leads [HEADERS, ["A"], ["B"]]
        [leadA "B", leadA "C", leadA "D"] true "t").count = 2 := by
  have h := append_leads_writes_new_only [HEADERS, ["A"], ["B"]]
    [leadA "B", leadA "C", leadA "D"] "t" rfl (by decide)
  refine ⟨?_, ?_⟩
  · rw [h.1]
    decide
  · rw [h.2.1]
    decide

/-- Claim C9: duplicate filtering is performed only against the
identifiers already in the table, never within the input batch: every
incoming record bearing an identifier `v` that is not yet in the table
produces a written row with identifier `v`, counted with multiplicity. -/
theorem append_leads_batch_duplicates (s : Sheet) (leads : List Lead)
    (now v : String) (hhead : s.head? = some HEADERS) (hv : v ≠ "")
    (hnotin : v ∉ get_existing_lead_ids (some s)) :
    ((append_leads s leads true now).written.filterMap List.head?).count v =
      leads.countP (fun l => leadGetD l "Id" "" == v) := by
  rw [append_leads_eq s leads now hhead]
  show (((leads.filter _).map (lead_to_row now)).filterMap List.head?).count v = _
  rw [filterMap_head_rows, List.count_eq_countP, List.countP_map,
    List.countP_filter]
  apply List.countP_congr
  intro l hl
  simp only [Function.comp_apply, Bool.and_eq_true, beq_iff_eq]
  constructor
  · exact fun h => h.1
  · intro h
    refine ⟨h, ?_⟩
    cases hgl : leadGet l "Id" with
    | none => simp [keepLead, hgl]
    | some w =>
      have hwv : w = v := by
        have := h
        rw [leadGetD, hgl] at this
        simpa using this
      subst hwv
      simp [keepLead, hgl, hnotin]

/-- Concrete instance of C9: two records sharing the fresh identifier
`"X"` are both written (two written rows carry identifier `"X"`). -/
theorem append_leads_batch_duplicates_witness :
    ((append_leads [HEADERS] [leadA "X", leadA "X"] true
        "t").written.filterMap List.head?).count "X" = 2 := by
  have h := append_leads_batch_duplicates [HEADERS] [leadA "X", leadA "X"]
    "t" "X" rfl (by decide) (by decide)
  rw [h]
  decide

/-- Claim C5, counterexample: for a note entry whose text is empty the
code emits nothing, while the claimed rendering of "every note entry"
would yield `"[t1] "`.  The code's notes cell is `""`, not `"[t1] "`. -/
theorem extract_notes_empty_text_counterexample :
    extract_notes ⟨[], some (.listOf [⟨"t1", ""⟩])⟩ = "" ∧
      String.intercalate " | "
          ((notesOf ⟨[], some (.listOf [⟨"t1", ""⟩])⟩).map renderNote) =
        "[t1] " ∧
      ("" : String) ≠ "[t1] " := by
  refine ⟨rfl, rfl, by decide⟩

/-- Claim C5 (amended): the notes cell concatenates the `[timestamp] text`
representation of every note entry whose text is non-empty, in source
order, joined by `" | "`, and is empty when there are no notes; in
particular the two-note example renders as `"[t1] hello | [t2] world"`. -/
theorem extract_notes_spec :
    (∀ l : Lead, extract_notes l =
        String.intercalate " | "
          (((notesOf l).filter (fun n => decide (n.Note ≠ ""))).map
            renderNote)) ∧
      extract_notes ⟨[], some (.listOf [⟨"t1", "hello"⟩, ⟨"t2", "world"⟩])⟩ =
        "[t1] hello | [t2] world" := by
  constructor
  · intro l
    cases h : l.ListOfSfinotesws with
    | none =>
      have he : String.intercalate " | " ([] : List String) = "" := rfl
      simp [extract_notes, notesOf, h, he]
    | some nf =>
      cases nf with
      | single n => simp [extract_notes, notesOf, h, filterMap_render]
      | listOf ns => simp [extract_notes, notesOf, h, filterMap_render]
  · rfl

/-- Claim C6: `get_existing_lead_ids` returns exactly the set of non-empty
values of the identifier column (first column, header row excluded), and
the empty set when the table cannot be read at all. -/
theorem get_existing_lead_ids_spec (os : Option Sheet) :
    get_existing_lead_ids os =
      match os with
      | none => (∅ : Finset String)
      | some s => ((idColumn s).filter (fun v => decide (v ≠ ""))).toFinset := by
  cases os with
  | none => rfl
  | some s => exact get_existing_lead_ids_eq s

/-- Claim C7: with a cached non-empty token whose stored expiry (the
nominal expiry minus the safety margin, as recorded at exchange time) has
not passed, the token operation performs no network exchange, returns the
identical cached token, and leaves the state unchanged; consequently the
second of two consecutive calls within the window behaves identically. -/
theorem get_access_token_cached (s : ClientState) (t : String) (e now : Int)
    (ht : s.access_token = some t) (hne : t ≠ "")
    (he : s.token_expiry = some e) (hlt : now < e) :
    (∀ exchange, get_access_token s now exchange =
        ⟨some t, s, false⟩) ∧
      ∀ ex1 ex2, get_access_token ((get_access_token s now ex1).state) now
          ex2 = ⟨some t, s, false⟩ := by
  have hmain : ∀ exchange, get_access_token s now exchange =
      ⟨some t, s, false⟩ := by
    intro exchange
    obtain ⟨a, b⟩ := s
    simp only at ht he
    subst ht he
    simp [get_access_token, hne, hlt]
  refine ⟨hmain, fun ex1 ex2 => ?_⟩
  rw [hmain ex1]
  exact hmain ex2

/-- Concrete instance of C7: a state caching token `"tok"` with expiry
100, queried at time 0, returns the cached token with no exchange. -/
theorem get_access_token_cached_witness :
    get_access_token ⟨some "tok", some 100⟩ 0 none =
      ⟨some "tok", ⟨some "tok", some 100⟩, false⟩ :=
  (get_access_token_cached ⟨some "tok", some 100⟩ "tok" 100 0 rfl
    (by decide) rfl (by decide)).1 none

/-- Claim C8: on a table whose first row already equals the canonical
21-column headers, `ensure_headers` performs zero writes and leaves the
table unchanged; otherwise (first row absent or unequal) it performs one
write that replaces the first row with the canonical headers and leaves
every other row unchanged.  (`hw`: rows fit the 21-column table model.) -/
theorem ensure_headers_frame (s : Sheet)
    (hw : ∀ r, s.head? = some r → r.length ≤ 21) :
    (s.head? = some HEADERS → ensure_headers s = (s, 0)) ∧
      (s.head? ≠ some HEADERS →
        (ensure_headers s).2 = 1 ∧
          (ensure_headers s).1 = HEADERS :: s.drop 1) := by
  refine ⟨ensure_headers_eq_self s, ?_⟩
  intro hne
  cases s with
  | nil => exact ⟨rfl, rfl⟩
  | cons r rest =>
    have hr21 : r.length ≤ 21 := hw r rfl
    have hrne : ¬(r = HEADERS) := fun h => hne (by rw [h]; rfl)
    have htake : r.take 21 = r := List.take_of_length_le hr21
    have hdrop : r.drop 21 = [] := List.drop_eq_nil_of_le hr21
    by_cases hre : r = []
    · subst hre
      simp [ensure_headers, readHeaderRange]
    · simp [ensure_headers, readHeaderRange, htake, hre, hrne, hdrop]

/-- Concrete instances of C8: a table whose first row is the canonical
headers gets zero writes; the empty table gets exactly the header row
installed. -/
theorem ensure_headers_frame_witness :
    ensure_headers [HEADERS] = ([HEADERS], 0) ∧
      (ensure_headers ([] : Sheet)).2 = 1 ∧
        (ensure_headers ([] : Sheet)).1 = HEADERS :: List.drop 1 [] := by
  refine ⟨(ensure_headers_frame [HEADERS] ?_).1 rfl,
    (ensure_headers_frame ([] : Sheet) ?_).2 ?_⟩
  · intro r hr
    have : HEADERS = r := by simpa using hr
    subst this
    decide
  · intro r hr
    simp at hr
  · decide

/-- Claim C2, counterexample: deduplication never looks inside the input
batch, so appending the batch `[X, X]` twice (starting from a header-only
table) leaves identifier `"X"` present twice, not exactly once. -/
theorem append_leads_idempotence_counterexample :
    (idColumn ((append_leads
        ((append_leads [HEADERS] [leadA "X", leadA "X"] true "t1").sheet)
        [leadA "X", leadA "X"] true "t2").sheet)).count "X" = 2 := by
  decide

/-- Claim C2 (amended): when the incoming records carry pairwise-distinct
non-empty identifiers and the table holds each of those identifiers at
most once, two consecutive `append_leads` calls with `skip_duplicates =
true` leave each record's identifier present exactly once. -/
theorem append_leads_idempotent (s : Sheet) (leads : List Lead)
    (now1 now2 : String) (hhead : s.head? = some HEADERS)
    (hnodup : (leads.filterMap (fun l => leadGet l "Id")).Nodup)
    (hne : ∀ l ∈ leads, ∀ v, leadGet l "Id" = some v → v ≠ "")
    (htab : ∀ l ∈ leads, ∀ v, leadGet l "Id" = some v →
      (idColumn s).count v ≤ 1) :
    ∀ l ∈ leads, ∀ v, leadGet l "Id" = some v →
      (idColumn ((append_leads ((append_leads s leads true now1).sheet)
          leads true now2).sheet)).count v = 1 := by
  intro l hl v hlv
  have hv : v ≠ "" := hne l hl v hlv
  have hsne : s ≠ [] := by
    intro h
    subst h
    simp at hhead
  have h1 := append_leads_eq s leads now1 hhead
  have hs1 : (append_leads s leads true now1).sheet =
      s ++ (leads.filter (fun x =>
        keepLead x (get_existing_lead_ids (some s)))).map
          (lead_to_row now1) := by
    rw [h1]
  have hs1h : (append_leads s leads true now1).sheet.head? = some HEADERS := by
    rw [hs1]
    cases s with
    | nil => exact absurd rfl hsne
    | cons r rest => simpa using hhead
  have hcol1 : idColumn ((append_leads s leads true now1).sheet) =
      idColumn s ++ (leads.filter (fun x =>
        keepLead x (get_existing_lead_ids (some s)))).map
          (fun x => leadGetD x "Id" "") := by
    rw [hs1, idColumn_append s _ hsne, filterMap_head_rows]
  have hvin : v ∈ leads.filterMap (fun x => leadGet x "Id") :=
    List.mem_filterMap.mpr ⟨l, hl, hlv⟩
  have hcnt1 : (leads.filterMap (fun x => leadGet x "Id")).count v = 1 := by
    have hle := List.nodup_iff_count_le_one.mp hnodup v
    have hge : 0 < (leads.filterMap (fun x => leadGet x "Id")).count v :=
      List.count_pos_iff.mpr hvin
    omega
  have hc1 : (idColumn ((append_leads s leads true now1).sheet)).count v
      = 1 := by
    rw [hcol1, List.count_append, count_cells_filter leads _ v hv]
    by_cases hvE : v ∈ get_existing_lead_ids (some s)
    · have hmem : v ∈ idColumn s := (mem_existing_ids s v hv).mp hvE
      have hpos : 0 < (idColumn s).count v := List.count_pos_iff.mpr hmem
      have hle := htab l hl v hlv
      simp only [hvE, if_pos]
      omega
    · have hnmem : v ∉ idColumn s := fun hmem =>
        hvE ((mem_existing_ids s v hv).mpr hmem)
      have hzero : (idColumn s).count v = 0 := List.count_eq_zero.mpr hnmem
      simp [hvE, hzero, hcnt1]
  have hvE2 : v ∈ get_existing_lead_ids
      (some ((append_leads s leads true now1).sheet)) := by
    apply (mem_existing_ids _ v hv).mpr
    apply List.count_pos_iff.mp
    rw [hc1]
    exact Nat.one_pos
  have hs1ne : (append_leads s leads true now1).sheet ≠ [] := by
    intro h
    rw [h] at hs1h
    simp at hs1h
  have h2 := append_leads_eq ((append_leads s leads true now1).sheet)
    leads now2 hs1h
  have hs2 : (append_leads ((append_leads s leads true now1).sheet)
      leads true now2).sheet =
      (append_leads s leads true now1).sheet ++ (leads.filter (fun x =>
        keepLead x (get_existing_lead_ids
          (some ((append_leads s leads true now1).sheet))))).map
            (lead_to_row now2) := by
    rw [h2]
  have hcol2 : idColumn ((append_leads
      ((append_leads s leads true now1).sheet) leads true now2).sheet) =
      idColumn ((append_leads s leads true now1).sheet) ++
        (leads.filter (fun x =>
          keepLead x (get_existing_lead_ids
            (some ((append_leads s leads true now1).sheet))))).map
              (fun x => leadGetD x "Id" "") := by
    rw [hs2, idColumn_append _ _ hs1ne, filterMap_head_rows]
  rw [hcol2, List.count_append, count_cells_filter leads _ v hv, hc1]
  simp [hvE2]

/-- Concrete instance of the amended C2: one fresh record appended twice
to a header-only table ends up with its identifier present exactly once. -/
theorem append_leads_idempotent_witness :
    (idColumn ((append_leads ((append_leads [HEADERS] [leadA "X"] true
        "t1").sheet) [leadA "X"] true "t2").sheet)).count "X" = 1 := by
  refine append_leads_idempotent [HEADERS] [leadA "X"] "t1" "t2" rfl
    (by decide) ?_ ?_ (leadA "X") (by simp) "X" rfl
  · intro x hx w hw
    have hxX : x = leadA "X" := by simpa using hx
    subst hxX
    have hgx : leadGet (leadA "X") "Id" = some "X" := rfl
    rw [hgx] at hw
    injection hw with h
    subst h
    decide
  · intro x hx w hw
    simp [idColumn]

/-! ## Pagination lemmas -/

/-- Concatenation of the first `k` pages, in order. -/
def pagesConcat {α : Type} : Nat → (Nat → List α) → List α
  | 0, _ => []
  | k + 1, p => p 0 ++ pagesConcat k (fun i => p (i + 1))

/-- The records the loop still appends at the stopping page: none for a
failed request, the page payload otherwise. -/
def stopTail {α : Type} : PageResult α → List α
  | .fail => []
  | .page raw _ => normalizeLeads raw

lemma fetchLoop_run {α : Type} (src : Nat → PageResult α) (ps : Nat)
    (hps : 1 ≤ ps) :
    ∀ (k : Nat) (p : Nat → List α) (lp : Nat → Option String)
      (base : Nat) (acc : List α) (fuel : Nat), k + 1 ≤ fuel →
      (∀ i, i < k → src (base + i * ps) = .page (.many (p i)) (lp i)) →
      (∀ i, i < k → (p i).length = ps) →
      (∀ i, i < k → lp i ≠ some "true") →
      stopsAt (src (base + k * ps)) ps →
      fetchLoop src ps fuel base acc =
        some (acc ++ pagesConcat k p ++ stopTail (src (base + k * ps))) := by
  intro k
  induction k with
  | zero =>
    intro p lp base acc fuel hfuel hfull hlen hnl hstop
    cases fuel with
    | zero => exact absurd hfuel (by omega)
    | succ f =>
      have hb : base + 0 * ps = base := by simp
      rw [hb] at hstop ⊢
      simp only [fetchLoop]
      cases hsrc : src base with
      | fail => simp [stopTail, hsrc, pagesConcat]
      | page raw lastPage =>
        rw [hsrc] at hstop
        by_cases hemp : (normalizeLeads raw).isEmpty
        · have hraw : normalizeLeads raw = [] := List.isEmpty_iff.mp hemp
          simp [hemp, stopTail, hraw, pagesConcat]
        · have hcond : lastPage = some "true" ∨
              (normalizeLeads raw).length < ps := by
            rcases hstop with h | h | h
            · exact absurd (List.isEmpty_iff.mpr h) hemp
            · exact Or.inl h
            · exact Or.inr h
          simp [hemp, hcond, stopTail, pagesConcat]
  | succ k ih =>
    intro p lp base acc fuel hfuel hfull hlen hnl hstop
    cases fuel with
    | zero => exact absurd hfuel (by omega)
    | succ f =>
      have h0 := hfull 0 (Nat.succ_pos k)
      have hb : base + 0 * ps = base := by simp
      rw [hb] at h0
      have hlen0 := hlen 0 (Nat.succ_pos k)
      have hne0 : ¬((p 0).isEmpty = true) := by
        rw [List.isEmpty_iff]
        intro h
        rw [h] at hlen0
        simp at hlen0
        omega
      have hnl0 := hnl 0 (Nat.succ_pos k)
      have hcond : ¬(lp 0 = some "true" ∨ (p 0).length < ps) := by
        rintro (h | h)
        · exact hnl0 h
        · omega
      have harith : ∀ i, base + ps + i * ps = base + (i + 1) * ps := by
        intro i
        ring
      have hrec := ih (fun i => p (i + 1)) (fun i => lp (i + 1)) (base + ps)
        (acc ++ p 0) f (by omega)
        (fun i hi => by rw [harith i]; exact hfull (i + 1) (by omega))
        (fun i hi => hlen (i + 1) (by omega))
        (fun i hi => hnl (i + 1) (by omega))
        (by rw [harith k]; exact hstop)
      simp only [fetchLoop]
      rw [h0]
      simp only [normalizeLeads, hne0, hcond, if_false]
      rw [hrec, harith k]
      simp [pagesConcat, List.append_assoc]

lemma fetchLoop_total {α : Type} (src : Nat → PageResult α) (ps : Nat) :
    ∀ (n base : Nat) (acc : List α), stopsAt (src (base + n * ps)) ps →
      ∃ r, fetchLoop src ps (n + 1) base acc = some r := by
  intro n
  induction n with
  | zero =>
    intro base acc hstop
    have hb : base + 0 * ps = base := by simp
    rw [hb] at hstop
    cases hsrc : src base with
    | fail => exact ⟨acc, by simp [fetchLoop, hsrc]⟩
    | page raw lastPage =>
      rw [hsrc] at hstop
      by_cases hemp : (normalizeLeads raw).isEmpty
      · exact ⟨acc, by simp [fetchLoop, hsrc, hemp]⟩
      · have hcond : lastPage = some "true" ∨
            (normalizeLeads raw).length < ps := by
          rcases hstop with h | h | h
          · exact absurd (List.isEmpty_iff.mpr h) hemp
          · exact Or.inl h
          · exact Or.inr h
        exact ⟨acc ++ normalizeLeads raw, by simp [fetchLoop, hsrc, hemp, hcond]⟩
  | succ n ih =>
    intro base acc hstop
    cases hsrc : src base with
    | fail => exact ⟨acc, by simp [fetchLoop, hsrc]⟩
    | page raw lastPage =>
      by_cases hemp : (normalizeLeads raw).isEmpty
      · exact ⟨acc, by simp [fetchLoop, hsrc, hemp]⟩
      · by_cases hcond : lastPage = some "true" ∨
            (normalizeLeads raw).length < ps
        · exact ⟨acc ++ normalizeLeads raw,
            by simp [fetchLoop, hsrc, hemp, hcond]⟩
        · have harith : base + ps + n * ps = base + (n + 1) * ps := by ring
          obtain ⟨r, hr⟩ := ih (base + ps) (acc ++ normalizeLeads raw)
            (by rw [harith]; exact hstop)
          refine ⟨r, ?_⟩
          simp only [fetchLoop]
          rw [hsrc]
          simp only [hemp, hcond, if_false]
          exact hr

lemma fetchLoop_zero_psize {α : Type} (src : Nat → PageResult α)
    (raw : RawLeads α) (lp : Option String)
    (hsrc : src 0 = .page raw lp) (hne : normalizeLeads raw ≠ [])
    (hlp : lp ≠ some "true") :
    ∀ (fuel : Nat) (acc : List α), fetchLoop src 0 fuel 0 acc = none := by
  intro fuel
  induction fuel with
  | zero => intro acc; rfl
  | succ f ih =>
    intro acc
    have hemp : ¬((normalizeLeads raw).isEmpty = true) := by
      rw [List.isEmpty_iff]
      exact hne
    have hcond : ¬(lp = some "true" ∨ (normalizeLeads raw).length < 0) := by
      rintro (h | h)
      · exact hlp h
      · omega
    simp only [fetchLoop]
    rw [hsrc]
    simp only [hemp, hcond, if_false]
    simpa using ih (acc ++ normalizeLeads raw)

/-- Claim C3: over a run of successful pages, the loop keeps requesting
pages exactly while each page is full and not declared last, stops at the
first page that is empty, declared last, or short, and returns the
concatenation of all received pages in order.  The hypotheses constrain
`src` only at the offsets `0, page_size, ..., k * page_size`, so the
result is independent of any later page. -/
theorem fetch_leads_pagination {α : Type} (src : Nat → PageResult α)
    (page_size k : Nat) (p : Nat → List α) (lp : Nat → Option String)
    (hps : 1 ≤ page_size)
    (hfull : ∀ i, i < k → src (i * page_size) = .page (.many (p i)) (lp i))
    (hlen : ∀ i, i < k → (p i).length = page_size)
    (hnl : ∀ i, i < k → lp i ≠ some "true")
    (raw : RawLeads α) (lpk : Option String)
    (hk : src (k * page_size) = .page raw lpk)
    (hstop : normalizeLeads raw = [] ∨ lpk = some "true" ∨
      (normalizeLeads raw).length < page_size) :
    ∀ fuel, k + 1 ≤ fuel →
      fetch_leads src page_size fuel =
        some (pagesConcat k p ++ normalizeLeads raw) := by
  intro fuel hfuel
  have h := fetchLoop_run src page_size hps k p lp 0 [] fuel hfuel
    (fun i hi => by simpa using hfull i hi)
    hlen hnl
    (by
      rw [Nat.zero_add, hk]
      exact hstop)
  rw [Nat.zero_add, hk] at h
  simpa [fetch_leads, stopTail] using h

/-- Pages for the concrete C3 instance: sizes 100, 100, 37, holding the
numbers 0..236 in order. -/
def p3 : Nat → List Nat :=
  fun i => List.range' (100 * i) (if i = 2 then 37 else 100)

/-- The concrete C3 page source: full pages at start rows 0 and 100, the
short page at 200, failure elsewhere. -/
def src3 : Nat → PageResult Nat := fun n =>
  if n = 0 then .page (.many (p3 0)) none
  else if n = 100 then .page (.many (p3 1)) none
  else if n = 200 then .page (.many (p3 2)) none
  else .fail

set_option maxRecDepth 100000 in
/-- Concrete instance of C3: pages of sizes 100, 100, 37 with page size
100 produce exactly the 237 records in original order. -/
theorem fetch_leads_pagination_witness :
    fetch_leads src3 100 3 = some (List.range 237) := by
  have h := fetch_leads_pagination src3 100 2 p3 (fun _ => none)
    (by decide) (by decide) (by decide) (by decide)
    (.many (p3 2)) none (by decide) (by decide) 3 (by decide)
  rw [h]
  decide

/-- Claim C4: when the page request after `k` successfully received full
pages fails, the loop stops and returns exactly the records accumulated
from those `k` pages; the failure is absorbed, not propagated. -/
theorem fetch_leads_partial_on_failure {α : Type} (src : Nat → PageResult α)
    (page_size k : Nat) (p : Nat → List α) (lp : Nat → Option String)
    (hps : 1 ≤ page_size)
    (hfull : ∀ i, i < k → src (i * page_size) = .page (.many (p i)) (lp i))
    (hlen : ∀ i, i < k → (p i).length = page_size)
    (hnl : ∀ i, i < k → lp i ≠ some "true")
    (hk : src (k * page_size) = .fail) :
    ∀ fuel, k + 1 ≤ fuel →
      fetch_leads src page_size fuel = some (pagesConcat k p) := by
  intro fuel hfuel
  have h := fetchLoop_run src page_size hps k p lp 0 [] fuel hfuel
    (fun i hi => by simpa using hfull i hi)
    hlen hnl
    (by
      rw [Nat.zero_add, hk]
      exact trivial)
  rw [Nat.zero_add, hk] at h
  simpa [fetch_leads, stopTail] using h

/-- The concrete C4 page source: one full page at start row 0, then every
request fails. -/
def src4 : Nat → PageResult Nat := fun n =>
  if n = 0 then .page (.many (List.range 100)) none else .fail

/-- Concrete instance of C4: after one full page of 100 records the next
request fails; the result is exactly those 100 records. -/
theorem fetch_leads_partial_on_failure_witness :
    fetch_leads src4 100 2 = some (List.range 100) := by
  have h := fetch_leads_partial_on_failure src4 100 1
    (fun _ => List.range 100) (fun _ => none)
    (by decide) (by decide) (by decide) (by decide) (by decide) 2 (by decide)
  rw [h]
  decide

/-- The concrete C10 counterexample source: a non-empty first page that is
declared the last page. -/
def srcLast : Nat → PageResult Nat :=
  fun _ => .page (.many [7]) (some "true")

/-- Claim C10, counterexample: with `page_size = 0` and a non-empty first
page, the loop can still terminate — the last-page declaration stops it —
so "the loop does not terminate" does not hold for every non-empty first
page. -/
theorem fetch_leads_termination_counterexample :
    normalizeLeads (RawLeads.many [7]) ≠ ([] : List Nat) ∧
      srcLast 0 = .page (.many [7]) (some "true") ∧
      fetch_leads srcLast 0 1 = some [7] := by
  refine ⟨by decide, rfl, by decide⟩

/-- Claim C10 (amended): for every page source that reaches a stop
condition at some page boundary and every `page_size ≥ 1` the pagination
loop terminates; for `page_size = 0` with a non-empty first page that is
not declared last, the offset never advances and the loop never
terminates (every fuel bound is exhausted). -/
theorem fetch_leads_termination :
    (∀ (α : Type) (src : Nat → PageResult α) (page_size : Nat),
        1 ≤ page_size →
        (∃ n, stopsAt (src (n * page_size)) page_size) →
        ∃ fuel r, fetch_leads src page_size fuel = some r) ∧
      (∀ (α : Type) (src : Nat → PageResult α) (raw : RawLeads α)
          (lp : Option String), src 0 = .page raw lp →
        normalizeLeads raw ≠ [] → lp ≠ some "true" →
        ∀ fuel, fetch_leads src 0 fuel = none) := by
  constructor
  · rintro α src ps hps ⟨n, hn⟩
    obtain ⟨r, hr⟩ := fetchLoop_total src ps n 0 [] (by simpa using hn)
    exact ⟨n + 1, r, hr⟩
  · intro α src raw lp hsrc hne hlp fuel
    exact fetchLoop_zero_psize src raw lp hsrc hne hlp fuel []

/-- Concrete instances of the amended C10: an immediately failing source
terminates with page size 1, while a perpetually full, never-last source
with page size 0 exhausts any fuel bound. -/
theorem fetch_leads_termination_witness :
    (∃ fuel r, fetch_leads (fun _ => (PageResult.fail : PageResult Nat)) 1
        fuel = some r) ∧
      fetch_leads (fun _ => PageResult.page (RawLeads.many [7]) none) 0 5 =
        none := by
  constructor
  · exact fetch_leads_termination.1 Nat (fun _ => .fail) 1 (by decide)
      ⟨0, trivial⟩
  · exact fetch_leads_termination.2 Nat
      (fun _ => PageResult.page (RawLeads.many [7]) none)
      (RawLeads.many [7]) none rfl (by decide) (by decide) 5
